import Mathlib

/-!
Verification of the mudra detection core of the Mudra-Academy repository
(src/js/mudra-detection.js with src/js/mudra-constants.js).

The file shallowly embeds, faithfully to the JavaScript source:

* the stabilization finite state machine `MudraFSM` (the source file contains
  two variants of the class that differ only in the numeric constants
  `ENTER_THRESHOLD` / `EXIT_THRESHOLD` / `MAX_MISMATCH` and in whether the
  `ENTERING_MUDRA` state applies the dynamic confusable-pair threshold;
  the embedding is a single `MudraFSM.update` parameterized by an
  `FSMConfig` record holding exactly those four points of variation, with
  `cfgFast` for the variant at lines 16-169 and `cfgOrig` for the variant
  at lines 774-899);
* the weighted-voting hybrid scorer `detectMudraHybrid` (lines 673-748),
  together with `normalizeMudraName` from mudra-constants.js.  The sixteen
  rule evaluators are frame-dependent float computations; the claims about
  the scorer quantify over which evaluators fire (or throw), so the scorer
  is embedded over the per-frame list of evaluator outcomes
  (`Except Unit Bool`: a thrown exception, `false`, or `true`), paired with
  the registry's fixed name list `RULE_MUDRA_FUNCTIONS` order;
* the geometric primitives `getAngle`, `angleBetween`, `getDistance`,
  `getScaleRef`, `normDistLazy`, `isFingerStraight` over the real numbers
  (JavaScript floats modelled as exact reals).  Landmark frames are
  modelled as total assignments of points to indices (a valid frame always
  carries all 21 points); `Math.hypot` is `Real.sqrt` of the sum of
  squares, `Math.acos` is `Real.arccos`.

JavaScript numbers in the state machine and scorer are modelled as `ℚ`
(all constants involved are decimal literals), which keeps those
definitions fully executable.
-/

/-! ## Stabilization finite state machine (mudra-detection.js, both variants) -/

/-- The five FSM states (stored as strings in the source). -/
inductive FSMState where
  | NO_HAND
  | HAND_DETECTED
  | ENTERING_MUDRA
  | CONFIRMED_MUDRA
  | EXITING_MUDRA
deriving DecidableEq, Repr

/-- The mutable fields of the `MudraFSM` class.  `currentMudra` and
`method` are nullable strings in the source, hence `Option String`. -/
structure MudraFSM where
  state : FSMState
  currentMudra : Option String
  method : Option String
  confidence : ℚ
  enterCount : ℕ
  exitCount : ℕ
  mismatchCount : ℕ
deriving DecidableEq, Repr

/-- The constants in which the two `MudraFSM` variants in the source file
differ.  `dynamicConfusablePairs` records whether the `ENTERING_MUDRA`
branch raises the required frame count for confusable pairs (present only
in the first variant). -/
structure FSMConfig where
  ENTER_THRESHOLD : ℕ
  EXIT_THRESHOLD : ℕ
  MAX_MISMATCH : ℕ
  dynamicConfusablePairs : Bool
deriving DecidableEq, Repr

/-- Constants of the first `MudraFSM` variant (lines 29-31):
`ENTER_THRESHOLD = 1`, `EXIT_THRESHOLD = 5`, `MAX_MISMATCH = 3`, with the
confusable-pair dynamic threshold. -/
def cfgFast : FSMConfig := ⟨1, 5, 3, true⟩

/-- Constants of the second `MudraFSM` variant (lines 787-789):
`ENTER_THRESHOLD = 2`, `EXIT_THRESHOLD = 2`, `MAX_MISMATCH = 1`, without the
confusable-pair dynamic threshold. -/
def cfgOrig : FSMConfig := ⟨2, 2, 1, false⟩

/-- The record returned by `MudraFSM.update`:
`{ displayName, displayConf, displayMethod }`.  `displayName` and
`displayMethod` echo the nullable fields `this.currentMudra` and
`this.method` in the non-sentinel branches, hence `Option String`. -/
structure FSMOutput where
  displayName : Option String
  displayConf : ℚ
  displayMethod : Option String
deriving DecidableEq, Repr

/-- One frame of input to `MudraFSM.update`. -/
structure FrameInput where
  handPresent : Bool
  candidateName : Option String
  candidateConf : ℚ
  candidateMethod : Option String
deriving DecidableEq, Repr

/-- The confusable-pair table of `MudraFSM._isConfusingPair` (lines 163-166). -/
def confusablePairs : List (List String) :=
  [["Chakra", "Shivalinga"], ["Anjali", "Namaskaram"]]

/-- `MudraFSM._isConfusingPair(a, b)` (lines 161-168).  The JavaScript
guard `if (!a || !b) return false` rejects null names (an empty-string
name would also be rejected there, but no pair entry is the empty string,
so `contains` already returns false for it). -/
def isConfusingPair (a b : Option String) : Bool :=
  match a, b with
  | some a, some b => confusablePairs.any (fun p => p.contains a && p.contains b)
  | _, _ => false

/-- `MudraFSM.reset()` (lines 34-42): back to `HAND_DETECTED` with all
fields cleared. -/
def MudraFSM.resetFSM (_ : MudraFSM) : MudraFSM :=
  { state := .HAND_DETECTED, currentMudra := none, method := none,
    confidence := 0, enterCount := 0, exitCount := 0, mismatchCount := 0 }

/-- State of a freshly constructed `MudraFSM` (constructor, lines 17-32). -/
def MudraFSM.init : MudraFSM :=
  { state := .NO_HAND, currentMudra := none, method := none,
    confidence := 0, enterCount := 0, exitCount := 0, mismatchCount := 0 }

/-- `MudraFSM.update(handPresent, candidateName, candidateConf,
candidateMethod)` (first variant lines 48-159, second variant lines
806-898; the two differ exactly by the `FSMConfig` constants).  Returns
the updated object state together with the
`{ displayName, displayConf, displayMethod }` record the method returns. -/
def MudraFSM.update (cfg : FSMConfig) (m : MudraFSM) (handPresent : Bool)
    (candidateName : Option String) (candidateConf : ℚ)
    (candidateMethod : Option String) : MudraFSM × FSMOutput :=
  if !handPresent then
    ({ m with state := .NO_HAND, currentMudra := none },
     ⟨some "No hand detected", 0, some ""⟩)
  else
    let m := if m.state = .NO_HAND then { m with state := .HAND_DETECTED } else m
    if m.state = .HAND_DETECTED then
      match candidateName with
      | none => (m, ⟨some "Show mudra...", 0, some ""⟩)
      | some _ =>
        if candidateMethod = some "RULE" then
          let m := { m with state := .CONFIRMED_MUDRA, currentMudra := candidateName,
                            method := some "RULE", confidence := 1 }
          (m, ⟨m.currentMudra, m.confidence, m.method⟩)
        else
          let m := { m with state := .ENTERING_MUDRA, currentMudra := candidateName,
                            method := candidateMethod, confidence := candidateConf,
                            enterCount := 1 }
          (m, ⟨some "Detecting...", 0, some ""⟩)
    else if m.state = .ENTERING_MUDRA then
      if candidateName = m.currentMudra then
        let m := { m with enterCount := m.enterCount + 1, mismatchCount := 0,
                          confidence := candidateConf }
        let requiredFrames :=
          if cfg.dynamicConfusablePairs && isConfusingPair m.currentMudra candidateName
          then 8 else cfg.ENTER_THRESHOLD
        if requiredFrames ≤ m.enterCount then
          let m := { m with state := .CONFIRMED_MUDRA }
          (m, ⟨m.currentMudra, m.confidence, m.method⟩)
        else
          (m, ⟨some "Detecting...", 0, some ""⟩)
      else
        let m := { m with mismatchCount := m.mismatchCount + 1 }
        if cfg.MAX_MISMATCH < m.mismatchCount then
          (m.resetFSM, ⟨some "Stabilizing...", 0, some ""⟩)
        else
          (m, ⟨some "Detecting...", 0, some ""⟩)
    else if m.state = .CONFIRMED_MUDRA then
      if candidateName = m.currentMudra then
        let m := { m with exitCount := 0 }
        let m := if m.method ≠ some "RULE" then { m with confidence := candidateConf } else m
        (m, ⟨m.currentMudra, m.confidence, m.method⟩)
      else
        let m := { m with state := .EXITING_MUDRA, exitCount := 1 }
        (m, ⟨m.currentMudra, m.confidence, m.method⟩)
    else if m.state = .EXITING_MUDRA then
      if candidateName = m.currentMudra then
        let m := { m with state := .CONFIRMED_MUDRA, exitCount := 0 }
        (m, ⟨m.currentMudra, m.confidence, m.method⟩)
      else
        let m := { m with exitCount := m.exitCount + 1 }
        if cfg.EXIT_THRESHOLD ≤ m.exitCount then
          (m.resetFSM, ⟨some "Show mudra...", 0, some ""⟩)
        else
          (m, ⟨m.currentMudra, m.confidence, m.method⟩)
    else
      (m, ⟨some "Show mudra...", 0, some ""⟩)

/-- Feed a list of frames through the FSM, collecting the per-frame outputs. -/
def MudraFSM.runFrames (cfg : FSMConfig) (m : MudraFSM) :
    List FrameInput → MudraFSM × List FSMOutput
  | [] => (m, [])
  | f :: rest =>
    let step := m.update cfg f.handPresent f.candidateName f.candidateConf f.candidateMethod
    let tail := MudraFSM.runFrames cfg step.1 rest
    (tail.1, step.2 :: tail.2)

/-! ## Name canonicalization (mudra-constants.js) -/

/-- JavaScript `toLowerCase()` on the ASCII names involved. -/
def toLowerJS (s : String) : String := ⟨s.data.map Char.toLower⟩

/-- JavaScript `trim()`: strip whitespace from both ends. -/
def trimJS (s : String) : String :=
  ⟨((s.data.dropWhile Char.isWhitespace).reverse.dropWhile Char.isWhitespace).reverse⟩

/-- JavaScript `String.prototype.replace(pat, "")` with a string pattern
removes only the first occurrence of `pat`. -/
def removeFirstOcc (pat : List Char) : List Char → List Char
  | [] => []
  | c :: cs =>
    if pat.isPrefixOf (c :: cs) then (c :: cs).drop pat.length
    else c :: removeFirstOcc pat cs

/-- JavaScript `replace(/\s+/g, "")`: delete all whitespace. -/
def removeWhitespace (s : String) : String := ⟨s.data.filter (fun c => !c.isWhitespace)⟩

/-- JavaScript `name.charAt(0).toUpperCase() + name.slice(1)`. -/
def capitalizeJS (s : String) : String :=
  match s.data with
  | [] => ""
  | c :: cs => ⟨c.toUpper :: cs⟩

/-- `MUDRA_NORMALIZATION_MAP` (mudra-constants.js lines 21-119), as an
association list in source order. -/
def MUDRA_NORMALIZATION_MAP : List (String × String) :=
  [("pathaka", "Pataka"), ("pataka mudra", "Pataka"),
   ("tripathaka", "Tripataka"), ("tripataka mudra", "Tripataka"),
   ("ardhapathaka", "Ardhapataka"), ("ardhapataka mudra", "Ardhapataka"),
   ("katrimukha", "Kartarimukha"), ("kartarimukham", "Kartarimukha"),
   ("kartari mukham mudra", "Kartarimukha"),
   ("mayura mudra", "Mayura"),
   ("ardhachandran", "Ardhachandra"), ("ardhachandra mudra", "Ardhachandra"),
   ("aralam", "Arala"), ("arala mudra", "Arala"),
   ("sukatunda", "Shukatunda"), ("shukatundam", "Shukatunda"),
   ("shuka tundam mudra", "Shukatunda"),
   ("musthi", "Mushti"), ("musti", "Mushti"), ("musthi mudra", "Mushti"),
   ("shikharam", "Shikhara"), ("sikharam", "Shikhara"), ("shikharam mudra", "Shikhara"),
   ("kapith", "Kapittha"), ("kapittha mudra", "Kapittha"),
   ("katakamukha mudra", "Katakamukha"),
   ("suchi mudra", "Suchi"),
   ("chandrakala mudra", "Chandrakala"),
   ("padmakosa", "Padmakosha"), ("padmakosha mudra", "Padmakosha"),
   ("sarpasirsha", "Sarpashirsha"), ("sarpashirsha mudra", "Sarpashirsha"),
   ("mrigasirsha", "Mrigashirsha"), ("mrugashirsha", "Mrigashirsha"),
   ("mrigasheersha", "Mrigashirsha"), ("mrigasheersha mudra", "Mrigashirsha"),
   ("simhamukham", "Simhamukha"), ("simhamukha mudra", "Simhamukha"),
   ("kangulam", "Kangula"), ("kangula mudra", "Kangula"),
   ("alapadmam", "Alapadma"), ("alapadma mudra", "Alapadma"),
   ("chaturam", "Chatura"), ("chautra", "Chatura"), ("chatura mudra", "Chatura"),
   ("bramaram", "Bhramara"), ("bharma", "Bhramara"), ("bhramara mudra", "Bhramara"),
   ("hamsasyam", "Hamsasya"), ("hamsasya mudra", "Hamsasya"),
   ("hamsapaksha", "Hamsapaksha"), ("hamsapaksa", "Hamsapaksha"),
   ("hamsapaksha mudra", "Hamsapaksha"),
   ("sandamsha mudra", "Sandamsha"),
   ("mukulam", "Mukula"), ("mukula mudra", "Mukula"),
   ("tamarachudam", "Tamrachuda"), ("tamracuda", "Tamrachuda"),
   ("tamrachuda mudra", "Tamrachuda"),
   ("trishulam", "Trishula"), ("trisula", "Trishula"), ("trishula mudra", "Trishula"),
   ("shanka", "Shanka"), ("shanka mudra", "Shanka"),
   ("anjali mudra", "Anjali")]

/-- `normalizeMudraName(name)` (mudra-constants.js lines 142-162). -/
def normalizeMudraName (name : String) : String :=
  if name = "" then ""
  else
    let lower := trimJS (toLowerJS name)
    match MUDRA_NORMALIZATION_MAP.lookup lower with
    | some canonical => canonical
    | none =>
      let clean := removeWhitespace ⟨removeFirstOcc " mudra".data lower.data⟩
      match MUDRA_NORMALIZATION_MAP.lookup clean with
      | some canonical => canonical
      | none => capitalizeJS name

/-! ## Hybrid scorer (mudra-detection.js, weighted-voting variant, lines 664-748) -/

/-- Result of `window.MudraInference.detectSingleHandML(landmarks)`:
`{ className, confidence }`. -/
structure MLResult where
  className : String
  confidence : ℚ
deriving DecidableEq, Repr

/-- One entry of the per-frame `candidates` map of `detectMudraHybrid`:
normalized pose name, accumulated score, contributing provenance tags.
The JavaScript object preserves key insertion order, so the map is an
association list in insertion order. -/
structure Candidate where
  name : String
  score : ℚ
  sources : List String
deriving DecidableEq, Repr

/-- Name column of `RULE_MUDRA_FUNCTIONS` (lines 641-658), in source
order.  The value column holds the sixteen geometric evaluators, whose
per-frame outcomes the scorer consumes; claims about the scorer quantify
over those outcomes, so the scorer below takes them as a list of
`Except Unit Bool` (thrown / returned boolean) paired positionally with
these names. -/
def RULE_MUDRA_NAMES : List String :=
  ["Musthi Mudra", "Suchi Mudra", "Shikharam Mudra", "Hamsasya Mudra",
   "Mayura Mudra", "Tripataka Mudra", "Kartari Mukham Mudra", "Trishula Mudra",
   "Mrigasheersha Mudra", "Hamsapaksha Mudra", "Ardhapataka Mudra",
   "Shuka Tundam Mudra", "Arala Mudra", "Sarpashirsha Mudra", "Pataka Mudra",
   "Chatura Mudra"]

/-- The `addScore(name, score, source)` helper of `detectMudraHybrid`
(lines 680-695): skip falsy names, normalize, then accumulate into the
candidates map (update in place if the key exists, else insert at the
end, as a JavaScript object does). -/
def addScore (cands : List Candidate) (name : String) (score : ℚ) (source : String) :
    List Candidate :=
  if name = "" then cands
  else
    let n := normalizeMudraName name
    if cands.any (fun c => c.name = n) then
      cands.map (fun c =>
        if c.name = n then
          { c with score := c.score + score, sources := c.sources ++ [source] }
        else c)
    else
      cands ++ [{ name := n, score := score, sources := [source] }]

/-- One iteration of the rule-voting loop (lines 700-708): a rule that
returns true adds the fixed rule weight 1.2 under provenance "RULE"; a
rule that returns false or throws contributes nothing (`catch (e) {
continue; }`). -/
def ruleStep (cands : List Candidate) (nr : String × Except Unit Bool) : List Candidate :=
  match nr.2 with
  | .ok true => addScore cands nr.1 (mkRat 12 10) "RULE"
  | _ => cands

/-- The rule-voting phase of `detectMudraHybrid` (lines 700-708), folded
over the registry in source order starting from the empty candidates map. -/
def ruleVotes (ruleOutcomes : List (String × Except Unit Bool)) : List Candidate :=
  ruleOutcomes.foldl ruleStep []

/-- The ML-voting phase of `detectMudraHybrid` (lines 712-723).
`Except.ok none` models `window.MudraInference` being absent or not
initialized; `Except.error ()` models the classifier call throwing, which
the code catches and logs (`catch (e) { console.error(...) }`), adding no
vote; `Except.ok (some r)` adds `r.confidence` under provenance "ML"
provided the class name is truthy and the confidence exceeds the 0.3
floor. -/
def mlVote (cands : List Candidate) (ml : Except Unit (Option MLResult)) : List Candidate :=
  match ml with
  | .ok (some r) =>
    if r.className ≠ "" ∧ mkRat 3 10 < r.confidence then
      addScore cands r.className r.confidence "ML"
    else cands
  | _ => cands

/-- Candidates map built by `detectMudraHybrid` for a frame, from the
registry outcomes and the classifier outcome. -/
def candidatesOf (ruleResults : List (Except Unit Bool)) (ml : Except Unit (Option MLResult)) :
    List Candidate :=
  mlVote (ruleVotes (RULE_MUDRA_NAMES.zip ruleResults)) ml

/-- Winner selection (lines 726-734): scan the candidates map keeping the
first strictly-greater score, starting from `winner = null`,
`maxScore = 0`. -/
def selectWinner (cands : List Candidate) : Option String × ℚ :=
  cands.foldl (fun acc c => if acc.2 < c.score then (some c.name, c.score) else acc) (none, 0)

/-- `HYBRID_THRESHOLD` (line 737): the source literal 0.55. -/
def HYBRID_THRESHOLD : ℚ := mkRat 55 100

/-- The `{ mudraName, confidence, method }` record returned by
`detectMudraHybrid`. -/
structure HybridResult where
  mudraName : String
  confidence : ℚ
  method : String
deriving DecidableEq, Repr

/-- `detectMudraHybrid` (lines 673-748), weighted-voting variant, as a
function of the per-frame rule outcomes and classifier outcome.  The
acceptance guard `if (winner && maxScore > HYBRID_THRESHOLD)` treats both
a null and an empty-string winner as falsy. -/
def detectMudraHybrid (ruleResults : List (Except Unit Bool))
    (ml : Except Unit (Option MLResult)) : HybridResult :=
  let cands := candidatesOf ruleResults ml
  let ws := selectWinner cands
  match ws.1 with
  | some w =>
    if w ≠ "" ∧ HYBRID_THRESHOLD < ws.2 then
      { mudraName := w, confidence := min 1 ws.2,
        method :=
          if (((cands.find? (fun c => c.name = w)).map Candidate.sources).getD []).contains "RULE"
          then "HYBRID" else "ML" }
    else { mudraName := "Unknown", confidence := 0, method := "ML" }
  | none => { mudraName := "Unknown", confidence := 0, method := "ML" }

/-! ## Geometric primitives (mudra-detection.js lines 175-231) -/

/-- A 2D landmark point (the geometry helpers under verification read
only `x` and `y`). -/
structure Point where
  x : ℝ
  y : ℝ

/-- A landmark frame: the hand tracker delivers a fixed-size ordered
sequence of points, modelled as a total assignment of a point to every
index. -/
def Landmarks : Type := ℕ → Point

/-- `Math.hypot(x, y)`. -/
noncomputable def hypot (x y : ℝ) : ℝ := Real.sqrt (x ^ 2 + y ^ 2)

/-- `getDistance(a, b)` (lines 175-177). -/
noncomputable def getDistance (a b : Point) : ℝ := hypot (a.x - b.x) (a.y - b.y)

/-- `getScaleRef(landmarks)` (lines 179-181): wrist-to-middle-MCP
distance plus the epsilon `1e-6`. -/
noncomputable def getScaleRef (lms : Landmarks) : ℝ :=
  getDistance (lms 0) (lms 9) + 1 / 1000000

/-- `normDistLazy(landmarks, i, j, scaleRef)` (lines 183-185). -/
noncomputable def normDistLazy (lms : Landmarks) (i j : ℕ) (scaleRef : ℝ) : ℝ :=
  getDistance (lms i) (lms j) / scaleRef

/-- `getAngle(a, b, c, landmarks)` (lines 187-207): the angle at vertex
`b` in degrees via the clamped-cosine formula; 180 when either ray is
zero-length.  (The source's `try/catch` guards only against invalid
landmark access, which cannot occur on a total landmark frame.) -/
noncomputable def getAngle (a b c : ℕ) (lms : Landmarks) : ℝ :=
  let v1x := (lms a).x - (lms b).x
  let v1y := (lms a).y - (lms b).y
  let v2x := (lms c).x - (lms b).x
  let v2y := (lms c).y - (lms b).y
  let dot := v1x * v2x + v1y * v2y
  let mag1 := hypot v1x v1y
  let mag2 := hypot v2x v2y
  if mag1 = 0 ∨ mag2 = 0 then 180
  else
    let cosA := max (-1) (min 1 (dot / (mag1 * mag2)))
    Real.arccos cosA * (180 / Real.pi)

/-- `angleBetween(v1, v2)` (lines 209-218): same computation on raw
vectors, but returning `null` (here `none`) on a zero-length vector. -/
noncomputable def angleBetween (v1 v2 : Point) : Option ℝ :=
  let mag1 := hypot v1.x v1.y
  let mag2 := hypot v2.x v2.y
  if mag1 = 0 ∨ mag2 = 0 then none
  else
    let dot := v1.x * v2.x + v1.y * v2.y
    let cosA := max (-1) (min 1 (dot / (mag1 * mag2)))
    some (Real.arccos cosA * (180 / Real.pi))

/-- The straightness ratio computed inside `isFingerStraight` (lines
220-230): direct MCP-to-tip normalized distance over the sum of the two
normalized segment distances. -/
noncomputable def straightnessRatio (lms : Landmarks) (mcp pip tip : ℕ) : ℝ :=
  let scaleRef := getScaleRef lms
  let mcpPip := normDistLazy lms mcp pip scaleRef
  let pipTip := normDistLazy lms pip tip scaleRef
  let mcpTip := normDistLazy lms mcp tip scaleRef
  mcpTip / (mcpPip + pipTip)

/-- `isFingerStraight(landmarks, mcp, pip, tip, threshold)` (lines
220-231; the source default for `threshold` is 0.9): false on a
degenerate zero total, else compare the straightness ratio against the
threshold. -/
noncomputable def isFingerStraight (lms : Landmarks) (mcp pip tip : ℕ) (threshold : ℝ) : Bool :=
  let scaleRef := getScaleRef lms
  let mcpPip := normDistLazy lms mcp pip scaleRef
  let pipTip := normDistLazy lms pip tip scaleRef
  let mcpTip := normDistLazy lms mcp tip scaleRef
  let total := mcpPip + pipTip
  if total = 0 then false
  else decide (threshold < mcpTip / total)

/-- Uniform scaling of all landmark coordinates by a factor `k`. -/
def scaleLandmarks (k : ℝ) (lms : Landmarks) : Landmarks :=
  fun i => ⟨k * (lms i).x, k * (lms i).y⟩

/-- The four sentinel display names `MudraFSM.update` can emit. -/
def sentinelNames : List String :=
  ["No hand detected", "Show mudra...", "Detecting...", "Stabilizing..."]

/-! ## Theorems.  Shared helper lemmas come first, each claim theorem is
marked with its claim identifier. -/

lemma arccosDeg_nonneg (t : ℝ) : 0 ≤ Real.arccos t * (180 / Real.pi) :=
  mul_nonneg (Real.arccos_nonneg t) (by positivity)

lemma arccosDeg_le (t : ℝ) : Real.arccos t * (180 / Real.pi) ≤ 180 := by
  have h1 : Real.arccos t ≤ Real.pi := Real.arccos_le_pi t
  have h2 : (0:ℝ) ≤ 180 / Real.pi := by positivity
  calc Real.arccos t * (180 / Real.pi) ≤ Real.pi * (180 / Real.pi) :=
        mul_le_mul_of_nonneg_right h1 h2
    _ = 180 := by field_simp

lemma hypot_zero : hypot 0 0 = 0 := by
  simp [hypot]

/-- Claim C8: `getAngle` and `angleBetween` return values in the range
0 to 180 degrees whenever they return a number; on a zero-length ray
`getAngle` returns the 180-degree fallback (instantiated here with the
two coinciding-point families that make a ray zero-length), and on a
zero-length vector `angleBetween` returns the no-angle sentinel `none`
instead of a number. -/
theorem getAngle_angleBetween_range_and_degenerate :
    (∀ (a b c : ℕ) (lms : Landmarks),
        0 ≤ getAngle a b c lms ∧ getAngle a b c lms ≤ 180) ∧
    (∀ (b c : ℕ) (lms : Landmarks), getAngle b b c lms = 180) ∧
    (∀ (a b : ℕ) (lms : Landmarks), getAngle a b b lms = 180) ∧
    (∀ v1 v2 : Point,
        (angleBetween v1 v2).elim True (fun θ => 0 ≤ θ ∧ θ ≤ 180)) ∧
    (∀ v : Point, angleBetween ⟨0, 0⟩ v = none ∧ angleBetween v ⟨0, 0⟩ = none) := by
  refine ⟨?_, ?_, ?_, ?_, ?_⟩
  · intro a b c lms
    unfold getAngle
    dsimp only
    split
    · norm_num
    · exact ⟨arccosDeg_nonneg _, arccosDeg_le _⟩
  · intro b c lms
    unfold getAngle
    simp [sub_self, hypot_zero]
  · intro a b lms
    unfold getAngle
    simp [sub_self, hypot_zero]
  · intro v1 v2
    unfold angleBetween
    dsimp only
    split
    · simp
    · simpa using ⟨arccosDeg_nonneg _, arccosDeg_le _⟩
  · intro v
    constructor
    · unfold angleBetween
      simp [hypot_zero]
    · unfold angleBetween
      simp [hypot_zero]

lemma hypot_nonneg (x y : ℝ) : 0 ≤ hypot x y := Real.sqrt_nonneg _

lemma getDistance_nonneg (a b : Point) : 0 ≤ getDistance a b := hypot_nonneg _ _

lemma getScaleRef_pos (lms : Landmarks) : 0 < getScaleRef lms := by
  have h := getDistance_nonneg (lms 0) (lms 9)
  unfold getScaleRef
  linarith

lemma hypot_eq_complexAbs (x y : ℝ) : hypot x y = Complex.abs ⟨x, y⟩ := by
  rw [Complex.abs_apply, Complex.normSq_mk, hypot]
  congr 1
  ring

lemma getDistance_eq_abs (a b : Point) :
    getDistance a b = Complex.abs ((⟨a.x, a.y⟩ : ℂ) - (⟨b.x, b.y⟩ : ℂ)) := by
  rw [getDistance, hypot_eq_complexAbs]
  congr 1

lemma getDistance_triangle (a b c : Point) :
    getDistance a c ≤ getDistance a b + getDistance b c := by
  rw [getDistance_eq_abs a c, getDistance_eq_abs a b, getDistance_eq_abs b c]
  exact Complex.abs.sub_le _ _ _

lemma getDistance_scale (k : ℝ) (hk : 0 ≤ k) (a b : Point) :
    getDistance ⟨k * a.x, k * a.y⟩ ⟨k * b.x, k * b.y⟩ = k * getDistance a b := by
  unfold getDistance hypot
  have h1 : k * a.x - k * b.x = k * (a.x - b.x) := by ring
  have h2 : k * a.y - k * b.y = k * (a.y - b.y) := by ring
  dsimp only
  rw [h1, h2, mul_pow, mul_pow, ← mul_add, Real.sqrt_mul (sq_nonneg k), Real.sqrt_sq hk]

lemma scaleLandmarks_dist (k : ℝ) (hk : 0 ≤ k) (lms : Landmarks) (i j : ℕ) :
    getDistance (scaleLandmarks k lms i) (scaleLandmarks k lms j) =
      k * getDistance (lms i) (lms j) :=
  getDistance_scale k hk (lms i) (lms j)

lemma isFingerStraight_eq_of_total_ne (lms : Landmarks) (mcp pip tip : ℕ) (threshold : ℝ)
    (h : normDistLazy lms mcp pip (getScaleRef lms)
          + normDistLazy lms pip tip (getScaleRef lms) ≠ 0) :
    isFingerStraight lms mcp pip tip threshold =
      decide (threshold < straightnessRatio lms mcp pip tip) := by
  unfold isFingerStraight straightnessRatio
  dsimp only
  rw [if_neg h]

/-- Claim C9: whenever the two normalized segment lengths of a finger do
not sum to zero, the straightness ratio computed inside
`isFingerStraight` lies in the interval from 0 to 1, and both the ratio
and the resulting boolean at any fixed threshold are invariant under
uniform scaling of all landmark coordinates by a positive factor. -/
theorem straightnessRatio_bounds_and_scale_invariant
    (lms : Landmarks) (mcp pip tip : ℕ) (k threshold : ℝ) (hk : 0 < k)
    (htot : normDistLazy lms mcp pip (getScaleRef lms)
              + normDistLazy lms pip tip (getScaleRef lms) ≠ 0) :
    (0 ≤ straightnessRatio lms mcp pip tip ∧ straightnessRatio lms mcp pip tip ≤ 1) ∧
    straightnessRatio (scaleLandmarks k lms) mcp pip tip =
      straightnessRatio lms mcp pip tip ∧
    isFingerStraight (scaleLandmarks k lms) mcp pip tip threshold =
      isFingerStraight lms mcp pip tip threshold := by
  have hs : getScaleRef lms ≠ 0 := ne_of_gt (getScaleRef_pos lms)
  set dMP := getDistance (lms mcp) (lms pip) with hdMP
  set dPT := getDistance (lms pip) (lms tip) with hdPT
  set dMT := getDistance (lms mcp) (lms tip) with hdMT
  have hsum : dMP + dPT ≠ 0 := by
    intro h0
    apply htot
    unfold normDistLazy
    rw [← hdMP, ← hdPT, div_add_div_same, h0, zero_div]
  have hsum_pos : 0 < dMP + dPT :=
    lt_of_le_of_ne (add_nonneg (getDistance_nonneg _ _) (getDistance_nonneg _ _)) (Ne.symm hsum)
  have hratio : straightnessRatio lms mcp pip tip = dMT / (dMP + dPT) := by
    unfold straightnessRatio normDistLazy
    dsimp only
    rw [← hdMP, ← hdPT, ← hdMT, div_add_div_same, div_div_div_cancel_right₀ hs]
  have hs'pos : 0 < getScaleRef (scaleLandmarks k lms) :=
    getScaleRef_pos (scaleLandmarks k lms)
  have hs' : getScaleRef (scaleLandmarks k lms) ≠ 0 := ne_of_gt hs'pos
  have hsum' : k * dMP + k * dPT ≠ 0 := by
    rw [← mul_add]
    exact mul_ne_zero (ne_of_gt hk) hsum
  have hratio' : straightnessRatio (scaleLandmarks k lms) mcp pip tip =
      (k * dMT) / (k * dMP + k * dPT) := by
    unfold straightnessRatio normDistLazy
    dsimp only
    rw [scaleLandmarks_dist k hk.le, scaleLandmarks_dist k hk.le, scaleLandmarks_dist k hk.le,
      ← hdMP, ← hdPT, ← hdMT, div_add_div_same, div_div_div_cancel_right₀ hs']
  have hinv : straightnessRatio (scaleLandmarks k lms) mcp pip tip =
      straightnessRatio lms mcp pip tip := by
    rw [hratio, hratio', ← mul_add, mul_div_mul_left _ _ (ne_of_gt hk)]
  refine ⟨⟨?_, ?_⟩, hinv, ?_⟩
  · rw [hratio]
    exact div_nonneg (getDistance_nonneg _ _) hsum_pos.le
  · rw [hratio]
    exact (div_le_one hsum_pos).mpr (getDistance_triangle _ _ _)
  · have htot' : normDistLazy (scaleLandmarks k lms) mcp pip (getScaleRef (scaleLandmarks k lms))
        + normDistLazy (scaleLandmarks k lms) pip tip (getScaleRef (scaleLandmarks k lms)) ≠ 0 := by
      unfold normDistLazy
      rw [scaleLandmarks_dist k hk.le, scaleLandmarks_dist k hk.le, ← hdMP, ← hdPT,
        div_add_div_same]
      exact div_ne_zero hsum' hs'
    rw [isFingerStraight_eq_of_total_ne _ _ _ _ _ htot',
      isFingerStraight_eq_of_total_ne _ _ _ _ _ htot, hinv]

/-- A concrete landmark frame with all points on the x axis at integer
positions, used to instantiate the straightness-ratio theorem. -/
def lmsAxis : Landmarks := fun i => ⟨(i : ℝ), 0⟩

theorem straightnessRatio_bounds_and_scale_invariant_witness :
    (0 : ℝ) < 2 ∧
    (normDistLazy lmsAxis 5 6 (getScaleRef lmsAxis)
        + normDistLazy lmsAxis 6 8 (getScaleRef lmsAxis) ≠ 0) ∧
    ((0 ≤ straightnessRatio lmsAxis 5 6 8 ∧ straightnessRatio lmsAxis 5 6 8 ≤ 1) ∧
      straightnessRatio (scaleLandmarks 2 lmsAxis) 5 6 8 = straightnessRatio lmsAxis 5 6 8 ∧
      isFingerStraight (scaleLandmarks 2 lmsAxis) 5 6 8 (9/10)
        = isFingerStraight lmsAxis 5 6 8 (9/10)) := by
  have hk : (0:ℝ) < 2 := by norm_num
  have h56 : 0 < normDistLazy lmsAxis 5 6 (getScaleRef lmsAxis) := by
    apply div_pos ?_ (getScaleRef_pos _)
    unfold getDistance hypot lmsAxis
    dsimp only
    apply Real.sqrt_pos.mpr
    push_cast
    norm_num
  have h68 : 0 ≤ normDistLazy lmsAxis 6 8 (getScaleRef lmsAxis) :=
    div_nonneg (getDistance_nonneg _ _) (getScaleRef_pos _).le
  have htot : normDistLazy lmsAxis 5 6 (getScaleRef lmsAxis)
      + normDistLazy lmsAxis 6 8 (getScaleRef lmsAxis) ≠ 0 :=
    ne_of_gt (by linarith)
  exact ⟨hk, htot,
    straightnessRatio_bounds_and_scale_invariant lmsAxis 5 6 8 2 (9/10) hk htot⟩

/-- Claim C4: in `NO_HAND` (with the hand appearing this frame) or
`HAND_DETECTED`, a candidate carrying method "RULE" confirms in a single
frame with confidence pinned to 1.0 and method "RULE"; and while the
committed method is "RULE", a matching frame neither changes the
displayed confidence from 1.0 nor disturbs the committed pose. -/
theorem rule_candidate_confirms_immediately (cfg : FSMConfig) :
    (∀ (s : MudraFSM) (X : String) (conf : ℚ),
      s.state = .NO_HAND ∨ s.state = .HAND_DETECTED →
      (MudraFSM.update cfg s true (some X) conf (some "RULE")).1.state = .CONFIRMED_MUDRA ∧
      (MudraFSM.update cfg s true (some X) conf (some "RULE")).1.currentMudra = some X ∧
      (MudraFSM.update cfg s true (some X) conf (some "RULE")).1.method = some "RULE" ∧
      (MudraFSM.update cfg s true (some X) conf (some "RULE")).1.confidence = 1 ∧
      (MudraFSM.update cfg s true (some X) conf (some "RULE")).2 = ⟨some X, 1, some "RULE"⟩) ∧
    (∀ (t : MudraFSM) (X : String) (conf : ℚ) (meth : Option String),
      t.state = .CONFIRMED_MUDRA → t.method = some "RULE" →
      t.currentMudra = some X → t.confidence = 1 →
      (MudraFSM.update cfg t true (some X) conf meth).1.state = .CONFIRMED_MUDRA ∧
      (MudraFSM.update cfg t true (some X) conf meth).1.currentMudra = some X ∧
      (MudraFSM.update cfg t true (some X) conf meth).1.method = some "RULE" ∧
      (MudraFSM.update cfg t true (some X) conf meth).1.confidence = 1 ∧
      (MudraFSM.update cfg t true (some X) conf meth).2 = ⟨some X, 1, some "RULE"⟩) := by
  constructor
  · intro s X conf hs
    rcases hs with h | h <;> simp [MudraFSM.update, h]
  · intro t X conf meth hst hme hcm hcf
    simp [MudraFSM.update, hst, hme, hcm, hcf]

theorem rule_candidate_confirms_immediately_witness :
    (MudraFSM.init.state = .NO_HAND ∨ MudraFSM.init.state = .HAND_DETECTED) ∧
    ((MudraFSM.update cfgFast MudraFSM.init true (some "Pataka") 1 (some "RULE")).1.state =
        .CONFIRMED_MUDRA ∧
      (MudraFSM.update cfgFast MudraFSM.init true (some "Pataka") 1 (some "RULE")).1.currentMudra =
        some "Pataka" ∧
      (MudraFSM.update cfgFast MudraFSM.init true (some "Pataka") 1 (some "RULE")).1.method =
        some "RULE" ∧
      (MudraFSM.update cfgFast MudraFSM.init true (some "Pataka") 1 (some "RULE")).1.confidence =
        1 ∧
      (MudraFSM.update cfgFast MudraFSM.init true (some "Pataka") 1 (some "RULE")).2 =
        ⟨some "Pataka", 1, some "RULE"⟩) :=
  ⟨Or.inl rfl,
    (rule_candidate_confirms_immediately cfgFast).1 MudraFSM.init "Pataka" 1 (Or.inl rfl)⟩

/-- Claim C5: in `ENTERING_MUDRA` (first variant, `cfgFast`), a matching
candidate confirms against a required frame count of 8 exactly when the
tentative pose (equal to the candidate) belongs to a confusable pair
(Chakra/Shivalinga or Anjali/Namaskaram), and against the normal
`ENTER_THRESHOLD` when it belongs to none. -/
theorem entering_confusable_pair_requires_eight_frames (s : MudraFSM) (X : String)
    (conf : ℚ) (meth : Option String) (hs : s.state = .ENTERING_MUDRA)
    (hm : s.currentMudra = some X) :
    (isConfusingPair (some X) (some X) = true ↔
      (X = "Chakra" ∨ X = "Shivalinga" ∨ X = "Anjali" ∨ X = "Namaskaram")) ∧
    (isConfusingPair (some X) (some X) = true →
      ((MudraFSM.update cfgFast s true (some X) conf meth).1.state = .CONFIRMED_MUDRA ↔
        8 ≤ s.enterCount + 1)) ∧
    (isConfusingPair (some X) (some X) = false →
      ((MudraFSM.update cfgFast s true (some X) conf meth).1.state = .CONFIRMED_MUDRA ↔
        cfgFast.ENTER_THRESHOLD ≤ s.enterCount + 1)) := by
  obtain ⟨st, cm0, me0, cf0, ec0, xc0, mc0⟩ := s
  simp only [MudraFSM.mk.injEq] at hs hm
  subst hs
  subst hm
  refine ⟨?_, ?_, ?_⟩
  · simp [isConfusingPair, confusablePairs]
    tauto
  · intro hcp
    simp [MudraFSM.update, cfgFast, hcp]
    split <;> simp_all
  · intro hcp
    simp [MudraFSM.update, cfgFast, hcp]

theorem entering_confusable_pair_requires_eight_frames_witness :
    (MudraFSM.mk .ENTERING_MUDRA (some "Chakra") (some "ML") 1 3 0 0).state =
        .ENTERING_MUDRA ∧
    (MudraFSM.mk .ENTERING_MUDRA (some "Chakra") (some "ML") 1 3 0 0).currentMudra =
        some "Chakra" ∧
    ((isConfusingPair (some "Chakra") (some "Chakra") = true ↔
        ("Chakra" = "Chakra" ∨ "Chakra" = "Shivalinga" ∨ "Chakra" = "Anjali" ∨
          "Chakra" = "Namaskaram")) ∧
      (isConfusingPair (some "Chakra") (some "Chakra") = true →
        ((MudraFSM.update cfgFast (MudraFSM.mk .ENTERING_MUDRA (some "Chakra") (some "ML") 1 3 0 0)
            true (some "Chakra") 1 (some "ML")).1.state = .CONFIRMED_MUDRA ↔
          8 ≤ (MudraFSM.mk .ENTERING_MUDRA (some "Chakra") (some "ML") 1 3 0 0).enterCount + 1)) ∧
      (isConfusingPair (some "Chakra") (some "Chakra") = false →
        ((MudraFSM.update cfgFast (MudraFSM.mk .ENTERING_MUDRA (some "Chakra") (some "ML") 1 3 0 0)
            true (some "Chakra") 1 (some "ML")).1.state = .CONFIRMED_MUDRA ↔
          cfgFast.ENTER_THRESHOLD ≤
            (MudraFSM.mk .ENTERING_MUDRA (some "Chakra") (some "ML") 1 3 0 0).enterCount + 1))) :=
  ⟨rfl, rfl,
    entering_confusable_pair_requires_eight_frames
      (MudraFSM.mk .ENTERING_MUDRA (some "Chakra") (some "ML") 1 3 0 0)
      "Chakra" 1 (some "ML") rfl rfl⟩

set_option maxHeartbeats 1000000 in
/-- Every `MudraFSM.update` output is either one of the four sentinel
records (confidence 0, empty method) or the final state's committed
triple, whose pose name comes from the candidate or the previous state. -/
lemma update_output_cases (cfg : FSMConfig) (s : MudraFSM) (hp : Bool)
    (cn : Option String) (cc : ℚ) (cm : Option String) :
    ((MudraFSM.update cfg s hp cn cc cm).2.displayConf = 0 ∧
     (MudraFSM.update cfg s hp cn cc cm).2.displayMethod = some "" ∧
     (MudraFSM.update cfg s hp cn cc cm).2.displayName ∈ sentinelNames.map some) ∨
    ((MudraFSM.update cfg s hp cn cc cm).2 =
        ⟨(MudraFSM.update cfg s hp cn cc cm).1.currentMudra,
         (MudraFSM.update cfg s hp cn cc cm).1.confidence,
         (MudraFSM.update cfg s hp cn cc cm).1.method⟩ ∧
     ((MudraFSM.update cfg s hp cn cc cm).1.currentMudra = cn ∨
      (MudraFSM.update cfg s hp cn cc cm).1.currentMudra = s.currentMudra)) := by
  rcases hupd : MudraFSM.update cfg s hp cn cc cm with ⟨s2, out⟩
  simp only [hupd]
  unfold MudraFSM.update at hupd
  dsimp only at hupd
  repeat' split at hupd
  all_goals (cases hupd)
  all_goals simp_all [sentinelNames]

/-- Claim C10 is false exactly as stated: from the initial state, a
candidate whose (pathological) pose name equals the "Detecting..."
sentinel string is confirmed after two frames, after which the output
display name is a sentinel string carried with nonzero confidence and a
nonempty method. -/
theorem sentinel_outputs_counterexample :
    ∃ out ∈ (MudraFSM.runFrames cfgFast MudraFSM.init
        [⟨true, some "Detecting...", mkRat 9 10, some "ML"⟩,
         ⟨true, some "Detecting...", mkRat 9 10, some "ML"⟩]).2,
      out.displayName = some "Detecting..." ∧
      ¬(out.displayConf = 0 ∧ out.displayMethod = some "") := by
  refine ⟨⟨some "Detecting...", mkRat 9 10, some "ML"⟩, ?_, rfl, ?_⟩
  · have h : (MudraFSM.runFrames cfgFast MudraFSM.init
        [⟨true, some "Detecting...", mkRat 9 10, some "ML"⟩,
         ⟨true, some "Detecting...", mkRat 9 10, some "ML"⟩]).2 =
        [⟨some "Detecting...", 0, some ""⟩,
         ⟨some "Detecting...", mkRat 9 10, some "ML"⟩] := rfl
    rw [h]
    simp
  · rintro ⟨h1, _⟩
    exact absurd h1 (by decide)

/-- Claim C10 (amended): provided neither the candidate pose name nor
the committed pose name is one of the four sentinel strings, every
output whose display name is a sentinel string carries display
confidence 0 and empty display method; and unconditionally — for every
input whatsoever — a nonzero displayed confidence is only ever emitted
together with the committed pose name and the committed method tag. -/
theorem sentinel_outputs_carry_zero_confidence (cfg : FSMConfig) (s : MudraFSM) (hp : Bool)
    (cn : Option String) (cc : ℚ) (cm : Option String) :
    ((∀ nm ∈ sentinelNames, cn ≠ some nm ∧ s.currentMudra ≠ some nm) →
      (∃ nm ∈ sentinelNames, (MudraFSM.update cfg s hp cn cc cm).2.displayName = some nm) →
      (MudraFSM.update cfg s hp cn cc cm).2.displayConf = 0 ∧
      (MudraFSM.update cfg s hp cn cc cm).2.displayMethod = some "") ∧
    ((MudraFSM.update cfg s hp cn cc cm).2.displayConf ≠ 0 →
      (MudraFSM.update cfg s hp cn cc cm).2.displayName =
        (MudraFSM.update cfg s hp cn cc cm).1.currentMudra ∧
      (MudraFSM.update cfg s hp cn cc cm).2.displayMethod =
        (MudraFSM.update cfg s hp cn cc cm).1.method) := by
  rcases update_output_cases cfg s hp cn cc cm with ⟨hc, hm, _⟩ | ⟨hout, hname⟩
  · refine ⟨fun _ _ => ⟨hc, hm⟩, fun hne => absurd hc hne⟩
  · constructor
    · rintro hsn ⟨nm, hnm, hdn⟩
      exfalso
      rw [hout] at hdn
      rcases hname with h | h
      · exact (hsn nm hnm).1 (h ▸ hdn)
      · exact (hsn nm hnm).2 (h ▸ hdn)
    · intro _
      rw [hout]
      exact ⟨rfl, rfl⟩

theorem sentinel_outputs_carry_zero_confidence_witness :
    ((∀ nm ∈ sentinelNames, (some "Pataka" : Option String) ≠ some nm ∧
        MudraFSM.init.currentMudra ≠ some nm) →
      (∃ nm ∈ sentinelNames,
        (MudraFSM.update cfgFast MudraFSM.init true (some "Pataka") 1 (some "ML")).2.displayName =
          some nm) →
      (MudraFSM.update cfgFast MudraFSM.init true (some "Pataka") 1 (some "ML")).2.displayConf = 0 ∧
      (MudraFSM.update cfgFast MudraFSM.init true (some "Pataka") 1 (some "ML")).2.displayMethod =
        some "") ∧
    ((MudraFSM.update cfgFast MudraFSM.init true (some "Pataka") 1 (some "ML")).2.displayConf ≠ 0 →
      (MudraFSM.update cfgFast MudraFSM.init true (some "Pataka") 1 (some "ML")).2.displayName =
        (MudraFSM.update cfgFast MudraFSM.init true (some "Pataka") 1 (some "ML")).1.currentMudra ∧
      (MudraFSM.update cfgFast MudraFSM.init true (some "Pataka") 1 (some "ML")).2.displayMethod =
        (MudraFSM.update cfgFast MudraFSM.init true (some "Pataka") 1 (some "ML")).1.method) :=
  sentinel_outputs_carry_zero_confidence cfgFast MudraFSM.init true (some "Pataka") 1 (some "ML")

lemma runFrames_append (cfg : FSMConfig) (s : MudraFSM) (l1 l2 : List FrameInput) :
    MudraFSM.runFrames cfg s (l1 ++ l2) =
      ((MudraFSM.runFrames cfg (MudraFSM.runFrames cfg s l1).1 l2).1,
       (MudraFSM.runFrames cfg s l1).2 ++
         (MudraFSM.runFrames cfg (MudraFSM.runFrames cfg s l1).1 l2).2) := by
  induction l1 generalizing s with
  | nil => simp [MudraFSM.runFrames]
  | cons f rest ih =>
    simp only [List.cons_append, MudraFSM.runFrames, List.append_eq]
    rw [ih]

lemma entering_match_step (cfg : FSMConfig) (X : String) (conf newConf : ℚ)
    (me : Option String) (e xc mc : ℕ)
    (hX : (cfg.dynamicConfusablePairs && isConfusingPair (some X) (some X)) = false) :
    MudraFSM.update cfg ⟨.ENTERING_MUDRA, some X, me, conf, e, xc, mc⟩ true (some X) newConf
        (some "ML") =
      if cfg.ENTER_THRESHOLD ≤ e + 1 then
        (⟨.CONFIRMED_MUDRA, some X, me, newConf, e + 1, xc, 0⟩, ⟨some X, newConf, me⟩)
      else
        (⟨.ENTERING_MUDRA, some X, me, newConf, e + 1, xc, 0⟩,
         ⟨some "Detecting...", 0, some ""⟩) := by
  have hcases : ¬(cfg.dynamicConfusablePairs = true ∧ isConfusingPair (some X) (some X) = true) := by
    rintro ⟨h1, h2⟩
    rw [h1, h2] at hX
    exact absurd hX (by decide)
  simp [MudraFSM.update, hcases]

lemma run_entering_nc (cfg : FSMConfig) (X : String) (conf : ℚ) (me : Option String)
    (hX : (cfg.dynamicConfusablePairs && isConfusingPair (some X) (some X)) = false) :
    ∀ (k e xc : ℕ), (e + k < cfg.ENTER_THRESHOLD ∨ k = 0) →
      MudraFSM.runFrames cfg ⟨.ENTERING_MUDRA, some X, me, conf, e, xc, 0⟩
          (List.replicate k ⟨true, some X, conf, some "ML"⟩) =
        (⟨.ENTERING_MUDRA, some X, me, conf, e + k, xc, 0⟩,
         List.replicate k ⟨some "Detecting...", 0, some ""⟩) := by
  intro k
  induction k with
  | zero => intro e xc _; simp [MudraFSM.runFrames]
  | succ k ih =>
    intro e xc hbound
    have hb : e + (k + 1) < cfg.ENTER_THRESHOLD := by omega
    rw [List.replicate_succ]
    simp only [MudraFSM.runFrames]
    rw [entering_match_step cfg X conf conf me e xc 0 hX, if_neg (by omega)]
    rw [ih (e + 1) xc (Or.inl (by omega))]
    have he : e + 1 + k = e + (k + 1) := by omega
    rw [he, List.replicate_succ]

/-- Claim C2 is false as literally stated on the first `MudraFSM`
variant: its `ENTER_THRESHOLD` is 1, yet feeding `(true, "Pataka", 0.9,
"ML")` from `HAND_DETECTED` does not confirm at frame 1 — the first
frame always moves to `ENTERING_MUDRA` and outputs the detecting
sentinel. -/
theorem ml_confirm_exact_threshold_counterexample :
    cfgFast.ENTER_THRESHOLD = 1 ∧
    (MudraFSM.update cfgFast (MudraFSM.mk .HAND_DETECTED none none 0 0 0 0) true
        (some "Pataka") (mkRat 9 10) (some "ML")).1.state ≠ .CONFIRMED_MUDRA ∧
    (MudraFSM.update cfgFast (MudraFSM.mk .HAND_DETECTED none none 0 0 0 0) true
        (some "Pataka") (mkRat 9 10) (some "ML")).2 =
      ⟨some "Detecting...", 0, some ""⟩ :=
  ⟨rfl, by decide, rfl⟩

/-- Claim C2 (amended): starting from `HAND_DETECTED` (with a clean
mismatch counter) and feeding the same non-confusable ML candidate every
frame, the FSM reaches `CONFIRMED_MUDRA` exactly at frame
`max 2 ENTER_THRESHOLD`: every strictly earlier frame leaves it in
`ENTERING_MUDRA` and outputs only the detecting sentinel (so for the
variant with `ENTER_THRESHOLD = 2` confirmation is exactly at frame
`N = ENTER_THRESHOLD` as claimed, while for the variant with
`ENTER_THRESHOLD = 1` it is at frame 2, not frame 1). -/
theorem ml_confirm_at_frame_max_two_threshold (cfg : FSMConfig) (s0 : MudraFSM) (X : String)
    (conf : ℚ) (hs : s0.state = .HAND_DETECTED) (hmc : s0.mismatchCount = 0)
    (hX : (cfg.dynamicConfusablePairs && isConfusingPair (some X) (some X)) = false)
    (k : ℕ) (hk : 1 ≤ k) :
    (k < max 2 cfg.ENTER_THRESHOLD →
      (MudraFSM.runFrames cfg s0 (List.replicate k ⟨true, some X, conf, some "ML"⟩)).1.state =
          .ENTERING_MUDRA ∧
      (MudraFSM.runFrames cfg s0 (List.replicate k ⟨true, some X, conf, some "ML"⟩)).2 =
          List.replicate k ⟨some "Detecting...", 0, some ""⟩) ∧
    (k = max 2 cfg.ENTER_THRESHOLD →
      (MudraFSM.runFrames cfg s0 (List.replicate k ⟨true, some X, conf, some "ML"⟩)).1.state =
          .CONFIRMED_MUDRA ∧
      (MudraFSM.runFrames cfg s0 (List.replicate k ⟨true, some X, conf, some "ML"⟩)).2 =
          List.replicate (k - 1) ⟨some "Detecting...", 0, some ""⟩ ++
            [⟨some X, conf, some "ML"⟩]) := by
  obtain ⟨st0, cm0, me0, cf0, ec0, xc0, mc0⟩ := s0
  simp only [MudraFSM.mk.injEq] at hs hmc
  subst hs
  subst hmc
  have hfirst : ∀ rest,
      MudraFSM.runFrames cfg ⟨.HAND_DETECTED, cm0, me0, cf0, ec0, xc0, 0⟩
          (⟨true, some X, conf, some "ML"⟩ :: rest) =
        ((MudraFSM.runFrames cfg ⟨.ENTERING_MUDRA, some X, some "ML", conf, 1, xc0, 0⟩ rest).1,
         ⟨some "Detecting...", 0, some ""⟩ ::
           (MudraFSM.runFrames cfg ⟨.ENTERING_MUDRA, some X, some "ML", conf, 1, xc0, 0⟩
             rest).2) := by
    intro rest
    simp [MudraFSM.runFrames, MudraFSM.update]
  constructor
  · intro hklt
    obtain ⟨kp, rfl⟩ : ∃ kp, k = kp + 1 := ⟨k - 1, by omega⟩
    rw [List.replicate_succ, hfirst]
    have hnc := run_entering_nc cfg X conf (some "ML") hX kp 1 xc0 (by omega)
    rw [hnc]
    exact ⟨rfl, by rw [List.replicate_succ]⟩
  · intro hkeq
    obtain ⟨R2, rfl⟩ : ∃ R2, k = R2 + 2 := ⟨k - 2, by omega⟩
    rw [List.replicate_succ, hfirst]
    have hsplit : List.replicate (R2 + 1) (⟨true, some X, conf, some "ML"⟩ : FrameInput) =
        List.replicate R2 ⟨true, some X, conf, some "ML"⟩ ++
          [⟨true, some X, conf, some "ML"⟩] := by
      rw [← List.replicate_succ']
    rw [hsplit, runFrames_append]
    have hnc := run_entering_nc cfg X conf (some "ML") hX R2 1 xc0 (by omega)
    rw [hnc]
    have hlast : MudraFSM.runFrames cfg ⟨.ENTERING_MUDRA, some X, some "ML", conf, 1 + R2, xc0, 0⟩
        [⟨true, some X, conf, some "ML"⟩] =
        (⟨.CONFIRMED_MUDRA, some X, some "ML", conf, 1 + R2 + 1, xc0, 0⟩,
         [⟨some X, conf, some "ML"⟩]) := by
      simp only [MudraFSM.runFrames]
      rw [entering_match_step cfg X conf conf (some "ML") (1 + R2) xc0 0 hX,
        if_pos (by omega)]
    rw [hlast]
    refine ⟨rfl, ?_⟩
    simp [List.replicate_succ]

theorem ml_confirm_at_frame_max_two_threshold_witness :
    (MudraFSM.mk .HAND_DETECTED none none 0 0 0 0).state = .HAND_DETECTED ∧
    (MudraFSM.mk .HAND_DETECTED none none 0 0 0 0).mismatchCount = 0 ∧
    (cfgOrig.dynamicConfusablePairs && isConfusingPair (some "Pataka") (some "Pataka")) = false ∧
    1 ≤ 2 ∧
    ((2 < max 2 cfgOrig.ENTER_THRESHOLD →
      (MudraFSM.runFrames cfgOrig (MudraFSM.mk .HAND_DETECTED none none 0 0 0 0)
          (List.replicate 2 ⟨true, some "Pataka", mkRat 9 10, some "ML"⟩)).1.state =
          .ENTERING_MUDRA ∧
      (MudraFSM.runFrames cfgOrig (MudraFSM.mk .HAND_DETECTED none none 0 0 0 0)
          (List.replicate 2 ⟨true, some "Pataka", mkRat 9 10, some "ML"⟩)).2 =
          List.replicate 2 ⟨some "Detecting...", 0, some ""⟩) ∧
    (2 = max 2 cfgOrig.ENTER_THRESHOLD →
      (MudraFSM.runFrames cfgOrig (MudraFSM.mk .HAND_DETECTED none none 0 0 0 0)
          (List.replicate 2 ⟨true, some "Pataka", mkRat 9 10, some "ML"⟩)).1.state =
          .CONFIRMED_MUDRA ∧
      (MudraFSM.runFrames cfgOrig (MudraFSM.mk .HAND_DETECTED none none 0 0 0 0)
          (List.replicate 2 ⟨true, some "Pataka", mkRat 9 10, some "ML"⟩)).2 =
          List.replicate (2 - 1) ⟨some "Detecting...", 0, some ""⟩ ++
            [⟨some "Pataka", mkRat 9 10, some "ML"⟩])) :=
  ⟨rfl, rfl, by decide, by decide,
    ml_confirm_at_frame_max_two_threshold cfgOrig (MudraFSM.mk .HAND_DETECTED none none 0 0 0 0)
      "Pataka" (mkRat 9 10) rfl rfl (by decide) 2 (by decide)⟩

lemma exiting_differ_step (cfg : FSMConfig) (X : String) (cf : ℚ) (me : Option String)
    (ec xc mc : ℕ) (fn : Option String) (fc : ℚ) (fm : Option String) (hfn : fn ≠ some X) :
    MudraFSM.update cfg ⟨.EXITING_MUDRA, some X, me, cf, ec, xc, mc⟩ true fn fc fm =
      if cfg.EXIT_THRESHOLD ≤ xc + 1 then
        (⟨.HAND_DETECTED, none, none, 0, 0, 0, 0⟩, ⟨some "Show mudra...", 0, some ""⟩)
      else
        (⟨.EXITING_MUDRA, some X, me, cf, ec, xc + 1, mc⟩, ⟨some X, cf, me⟩) := by
  simp [MudraFSM.update, MudraFSM.resetFSM, hfn]

lemma run_exiting_nc (cfg : FSMConfig) (X : String) (cf : ℚ) (me : Option String) (ec mc : ℕ) :
    ∀ (frames : List FrameInput) (xc : ℕ),
      (∀ f ∈ frames, f.handPresent = true ∧ f.candidateName ≠ some X) →
      xc + frames.length < cfg.EXIT_THRESHOLD →
      MudraFSM.runFrames cfg ⟨.EXITING_MUDRA, some X, me, cf, ec, xc, mc⟩ frames =
        (⟨.EXITING_MUDRA, some X, me, cf, ec, xc + frames.length, mc⟩,
         List.replicate frames.length ⟨some X, cf, me⟩) := by
  intro frames
  induction frames with
  | nil => intro xc _ _; simp [MudraFSM.runFrames]
  | cons f rest ih =>
    intro xc hdiff hb
    obtain ⟨hfp, hfn⟩ := hdiff f (List.mem_cons_self f rest)
    simp only [MudraFSM.runFrames, hfp]
    rw [exiting_differ_step cfg X cf me ec xc mc f.candidateName f.candidateConf
        f.candidateMethod hfn, if_neg (by simp at hb; omega)]
    rw [ih (xc + 1) (fun g hg => hdiff g (List.mem_cons_of_mem f hg)) (by simp at hb ⊢; omega)]
    have hx : xc + 1 + rest.length = xc + (f :: rest).length := by simp; omega
    rw [hx, List.length_cons, List.replicate_succ]

lemma run_exiting_reset (cfg : FSMConfig) (X : String) (cf : ℚ) (me : Option String)
    (ec mc : ℕ) :
    ∀ (frames : List FrameInput) (xc : ℕ),
      (∀ f ∈ frames, f.handPresent = true ∧ f.candidateName ≠ some X) →
      xc + frames.length = cfg.EXIT_THRESHOLD → 1 ≤ frames.length →
      MudraFSM.runFrames cfg ⟨.EXITING_MUDRA, some X, me, cf, ec, xc, mc⟩ frames =
        (⟨.HAND_DETECTED, none, none, 0, 0, 0, 0⟩,
         List.replicate (frames.length - 1) ⟨some X, cf, me⟩ ++
           [⟨some "Show mudra...", 0, some ""⟩]) := by
  intro frames
  induction frames with
  | nil => intro xc _ _ h; exact absurd h (by decide)
  | cons f rest ih =>
    intro xc hdiff hb _
    obtain ⟨hfp, hfn⟩ := hdiff f (List.mem_cons_self f rest)
    simp only [MudraFSM.runFrames, hfp]
    rcases rest with _ | ⟨f2, rest2⟩
    · rw [exiting_differ_step cfg X cf me ec xc mc f.candidateName f.candidateConf
          f.candidateMethod hfn, if_pos (by simp at hb; omega)]
      simp [MudraFSM.runFrames]
    · rw [exiting_differ_step cfg X cf me ec xc mc f.candidateName f.candidateConf
          f.candidateMethod hfn, if_neg (by simp at hb; omega)]
      rw [ih (xc + 1) (fun g hg => hdiff g (List.mem_cons_of_mem f hg))
          (by simp at hb ⊢; omega) (by simp)]
      simp [List.replicate_succ]

lemma confirmed_differ_step (cfg : FSMConfig) (X : String) (cf : ℚ) (me : Option String)
    (ec xc mc : ℕ) (fn : Option String) (fc : ℚ) (fm : Option String) (hfn : fn ≠ some X) :
    MudraFSM.update cfg ⟨.CONFIRMED_MUDRA, some X, me, cf, ec, xc, mc⟩ true fn fc fm =
      (⟨.EXITING_MUDRA, some X, me, cf, ec, 1, mc⟩, ⟨some X, cf, me⟩) := by
  simp [MudraFSM.update, hfn]

/-- Claim C3: once `CONFIRMED_MUDRA` on pose X, differing-candidate
frames keep displaying X while fewer than `EXIT_THRESHOLD` of them have
arrived (the FSM sits in `EXITING_MUDRA` with the exit counter equal to
the number of differing frames); at exactly `EXIT_THRESHOLD` consecutive
differing frames it resets and emits the "Show mudra..." sentinel; and a
frame carrying candidate X while still in `EXITING_MUDRA` returns to
`CONFIRMED_MUDRA` with the exit counter reset to 0, still displaying X. -/
theorem confirmed_pose_exit_hysteresis (cfg : FSMConfig) (s : MudraFSM) (X : String)
    (hst : s.state = .CONFIRMED_MUDRA) (hm : s.currentMudra = some X)
    (hex : 2 ≤ cfg.EXIT_THRESHOLD) :
    (∀ frames : List FrameInput,
      (∀ f ∈ frames, f.handPresent = true ∧ f.candidateName ≠ some X) →
      ((frames.length < cfg.EXIT_THRESHOLD →
        (∀ out ∈ (MudraFSM.runFrames cfg s frames).2, out.displayName = some X) ∧
        (1 ≤ frames.length →
          (MudraFSM.runFrames cfg s frames).1.state = .EXITING_MUDRA ∧
          (MudraFSM.runFrames cfg s frames).1.currentMudra = some X ∧
          (MudraFSM.runFrames cfg s frames).1.exitCount = frames.length)) ∧
      (frames.length = cfg.EXIT_THRESHOLD →
        (∀ out ∈ (MudraFSM.runFrames cfg s frames).2.dropLast, out.displayName = some X) ∧
        (MudraFSM.runFrames cfg s frames).2.getLast? =
          some ⟨some "Show mudra...", 0, some ""⟩ ∧
        (MudraFSM.runFrames cfg s frames).1.state = .HAND_DETECTED ∧
        (MudraFSM.runFrames cfg s frames).1.currentMudra = none))) ∧
    (∀ (t : MudraFSM) (conf : ℚ) (meth : Option String),
      t.state = .EXITING_MUDRA → t.currentMudra = some X →
      (MudraFSM.update cfg t true (some X) conf meth).1.state = .CONFIRMED_MUDRA ∧
      (MudraFSM.update cfg t true (some X) conf meth).1.exitCount = 0 ∧
      (MudraFSM.update cfg t true (some X) conf meth).2.displayName = some X) := by
  obtain ⟨st0, cm0, me0, cf0, ec0, xc0, mc0⟩ := s
  simp only [MudraFSM.mk.injEq] at hst hm
  subst hst
  subst hm
  constructor
  · intro frames hdiff
    constructor
    · intro hlt
      rcases frames with _ | ⟨f, rest⟩
      · simp [MudraFSM.runFrames]
      · obtain ⟨hfp, hfn⟩ := hdiff f (List.mem_cons_self f rest)
        simp only [MudraFSM.runFrames, hfp]
        rw [confirmed_differ_step cfg X cf0 me0 ec0 xc0 mc0 f.candidateName f.candidateConf
          f.candidateMethod hfn]
        rw [run_exiting_nc cfg X cf0 me0 ec0 mc0 rest 1
          (fun g hg => hdiff g (List.mem_cons_of_mem f hg)) (by simp at hlt; omega)]
        constructor
        · intro out hout
          rcases List.mem_cons.mp hout with rfl | h
          · rfl
          · rw [List.eq_of_mem_replicate h]
        · intro _
          refine ⟨rfl, rfl, ?_⟩
          simp
          omega
    · intro heq
      rcases frames with _ | ⟨f, rest⟩
      · simp at heq
        omega
      · obtain ⟨hfp, hfn⟩ := hdiff f (List.mem_cons_self f rest)
        simp only [MudraFSM.runFrames, hfp]
        rw [confirmed_differ_step cfg X cf0 me0 ec0 xc0 mc0 f.candidateName f.candidateConf
          f.candidateMethod hfn]
        rw [run_exiting_reset cfg X cf0 me0 ec0 mc0 rest 1
          (fun g hg => hdiff g (List.mem_cons_of_mem f hg)) (by simp at heq ⊢; omega)
          (by simp at heq ⊢; omega)]
        refine ⟨?_, ?_, rfl, rfl⟩
        · intro out hout
          rw [show (⟨some X, cf0, me0⟩ ::
              (List.replicate (rest.length - 1) (⟨some X, cf0, me0⟩ : FSMOutput) ++
                [⟨some "Show mudra...", 0, some ""⟩])).dropLast =
              ⟨some X, cf0, me0⟩ ::
                List.replicate (rest.length - 1) (⟨some X, cf0, me0⟩ : FSMOutput) from by
            rw [← List.cons_append, List.dropLast_concat]] at hout
          rcases List.mem_cons.mp hout with rfl | h
          · rfl
          · rw [List.eq_of_mem_replicate h]
        · rw [← List.cons_append, List.getLast?_concat]
  · intro t conf meth hts htm
    obtain ⟨st1, cm1, me1, cf1, ec1, xc1, mc1⟩ := t
    simp only [MudraFSM.mk.injEq] at hts htm
    subst hts
    subst htm
    simp [MudraFSM.update]

theorem confirmed_pose_exit_hysteresis_witness :
    (MudraFSM.mk .CONFIRMED_MUDRA (some "Pataka") (some "RULE") 1 0 0 0).state =
        .CONFIRMED_MUDRA ∧
    (MudraFSM.mk .CONFIRMED_MUDRA (some "Pataka") (some "RULE") 1 0 0 0).currentMudra =
        some "Pataka" ∧
    2 ≤ cfgFast.EXIT_THRESHOLD ∧
    ((∀ frames : List FrameInput,
      (∀ f ∈ frames, f.handPresent = true ∧ f.candidateName ≠ some "Pataka") →
      ((frames.length < cfgFast.EXIT_THRESHOLD →
        (∀ out ∈ (MudraFSM.runFrames cfgFast
            (MudraFSM.mk .CONFIRMED_MUDRA (some "Pataka") (some "RULE") 1 0 0 0) frames).2,
          out.displayName = some "Pataka") ∧
        (1 ≤ frames.length →
          (MudraFSM.runFrames cfgFast
            (MudraFSM.mk .CONFIRMED_MUDRA (some "Pataka") (some "RULE") 1 0 0 0)
            frames).1.state = .EXITING_MUDRA ∧
          (MudraFSM.runFrames cfgFast
            (MudraFSM.mk .CONFIRMED_MUDRA (some "Pataka") (some "RULE") 1 0 0 0)
            frames).1.currentMudra = some "Pataka" ∧
          (MudraFSM.runFrames cfgFast
            (MudraFSM.mk .CONFIRMED_MUDRA (some "Pataka") (some "RULE") 1 0 0 0)
            frames).1.exitCount = frames.length)) ∧
      (frames.length = cfgFast.EXIT_THRESHOLD →
        (∀ out ∈ (MudraFSM.runFrames cfgFast
            (MudraFSM.mk .CONFIRMED_MUDRA (some "Pataka") (some "RULE") 1 0 0 0)
            frames).2.dropLast, out.displayName = some "Pataka") ∧
        (MudraFSM.runFrames cfgFast
            (MudraFSM.mk .CONFIRMED_MUDRA (some "Pataka") (some "RULE") 1 0 0 0)
            frames).2.getLast? = some ⟨some "Show mudra...", 0, some ""⟩ ∧
        (MudraFSM.runFrames cfgFast
            (MudraFSM.mk .CONFIRMED_MUDRA (some "Pataka") (some "RULE") 1 0 0 0)
            frames).1.state = .HAND_DETECTED ∧
        (MudraFSM.runFrames cfgFast
            (MudraFSM.mk .CONFIRMED_MUDRA (some "Pataka") (some "RULE") 1 0 0 0)
            frames).1.currentMudra = none))) ∧
    (∀ (t : MudraFSM) (conf : ℚ) (meth : Option String),
      t.state = .EXITING_MUDRA → t.currentMudra = some "Pataka" →
      (MudraFSM.update cfgFast t true (some "Pataka") conf meth).1.state = .CONFIRMED_MUDRA ∧
      (MudraFSM.update cfgFast t true (some "Pataka") conf meth).1.exitCount = 0 ∧
      (MudraFSM.update cfgFast t true (some "Pataka") conf meth).2.displayName =
        some "Pataka")) :=
  ⟨rfl, rfl, by decide,
    confirmed_pose_exit_hysteresis cfgFast
      (MudraFSM.mk .CONFIRMED_MUDRA (some "Pataka") (some "RULE") 1 0 0 0) "Pataka"
      rfl rfl (by decide)⟩

/-- Claim C6: the hybrid scorer accepts the highest-scoring pose only
when its accumulated score strictly exceeds the 0.55 hybrid threshold and
otherwise returns "Unknown" with confidence 0; in particular a frame with
no rule hit and classifier confidence 0.4 (above the 0.3 floor, below
0.55) yields "Unknown". -/
theorem hybrid_scorer_threshold_gate :
    (∀ (rs : List (Except Unit Bool)) (ml : Except Unit (Option MLResult)),
      ¬ HYBRID_THRESHOLD < (selectWinner (candidatesOf rs ml)).2 →
      detectMudraHybrid rs ml = ⟨"Unknown", 0, "ML"⟩) ∧
    detectMudraHybrid (List.replicate 16 (.ok false)) (.ok (some ⟨"Pataka", mkRat 2 5⟩)) =
      ⟨"Unknown", 0, "ML"⟩ := by
  constructor
  · intro rs ml hle
    unfold detectMudraHybrid
    rcases hw : (selectWinner (candidatesOf rs ml)).1 with _ | w
    · simp [hw]
    · simp only [hw]
      rw [if_neg (fun hc => hle hc.2)]
  · decide

theorem hybrid_scorer_threshold_gate_witness :
    (¬ HYBRID_THRESHOLD <
        (selectWinner (candidatesOf (List.replicate 16 (.ok false)) (.ok none))).2) ∧
    detectMudraHybrid (List.replicate 16 (.ok false)) (.ok none) = ⟨"Unknown", 0, "ML"⟩ :=
  ⟨by decide, hybrid_scorer_threshold_gate.1 (List.replicate 16 (.ok false)) (.ok none)
    (by decide)⟩

lemma ruleStep_error_eq_false (init : List Candidate) (n : String) :
    ruleStep init (n, .error ()) = ruleStep init (n, .ok false) := rfl

lemma ruleVotes_zip_set (names : List String) :
    ∀ (rs : List (Except Unit Bool)) (i : ℕ) (init : List Candidate),
      (names.zip (rs.set i (.error ()))).foldl ruleStep init =
        (names.zip (rs.set i (.ok false))).foldl ruleStep init := by
  induction names with
  | nil => intro rs i init; simp
  | cons n nt ih =>
    intro rs i init
    rcases rs with _ | ⟨r, rt⟩
    · simp
    · rcases i with _ | j
      · simp only [List.set, List.zip_cons_cons, List.foldl_cons]
        rfl
      · simp only [List.set, List.zip_cons_cons, List.foldl_cons]
        exact ih rt j (ruleStep init (n, r))

/-- Claim C7: an exception thrown by one rule evaluator only skips that
evaluator's vote — the frame's result is the same as if the evaluator had
returned false, with every other evaluator still counted — and an
exception from the classifier call is the same as the classifier being
absent; `detectMudraHybrid` itself is total, so neither exception
propagates. -/
theorem evaluator_and_classifier_exceptions_isolated :
    (∀ (rs : List (Except Unit Bool)) (i : ℕ) (ml : Except Unit (Option MLResult)),
      detectMudraHybrid (rs.set i (.error ())) ml =
        detectMudraHybrid (rs.set i (.ok false)) ml) ∧
    (∀ rs : List (Except Unit Bool),
      detectMudraHybrid rs (.error ()) = detectMudraHybrid rs (.ok none)) := by
  constructor
  · intro rs i ml
    unfold detectMudraHybrid candidatesOf ruleVotes
    rw [ruleVotes_zip_set RULE_MUDRA_NAMES rs i []]
  · intro rs
    rfl

lemma addScore_rule_inv (cands : List Candidate) (nm : String)
    (h : ∀ c ∈ cands, "RULE" ∈ c.sources ∧ mkRat 12 10 ≤ c.score ∧
      c.name ∈ RULE_MUDRA_NAMES.map normalizeMudraName)
    (hnm : nm ∈ RULE_MUDRA_NAMES) :
    ∀ c ∈ addScore cands nm (mkRat 12 10) "RULE",
      "RULE" ∈ c.sources ∧ mkRat 12 10 ≤ c.score ∧
        c.name ∈ RULE_MUDRA_NAMES.map normalizeMudraName := by
  intro c hc
  by_cases hns : nm = ""
  · simp only [addScore, if_pos hns] at hc
    exact h c hc
  · simp only [addScore, if_neg hns] at hc
    split at hc
    · obtain ⟨c0, hc0, rfl⟩ := List.mem_map.mp hc
      obtain ⟨hs0, hsc0, hn0⟩ := h c0 hc0
      split
      · refine ⟨List.mem_append_left _ hs0, ?_, hn0⟩
        have hpos : (0:ℚ) ≤ mkRat 12 10 := by decide
        simp only
        linarith
      · exact ⟨hs0, hsc0, hn0⟩
    · rcases List.mem_append.mp hc with hmem | hmem
      · exact h c hmem
      · rw [List.mem_singleton.mp hmem]
        exact ⟨by simp, le_refl _, List.mem_map_of_mem normalizeMudraName hnm⟩

lemma ruleVotes_inv (l : List (String × Except Unit Bool)) :
    ∀ (init : List Candidate),
      (∀ pr ∈ l, pr.1 ∈ RULE_MUDRA_NAMES) →
      (∀ c ∈ init, "RULE" ∈ c.sources ∧ mkRat 12 10 ≤ c.score ∧
        c.name ∈ RULE_MUDRA_NAMES.map normalizeMudraName) →
      ∀ c ∈ l.foldl ruleStep init,
        "RULE" ∈ c.sources ∧ mkRat 12 10 ≤ c.score ∧
          c.name ∈ RULE_MUDRA_NAMES.map normalizeMudraName := by
  induction l with
  | nil => intro init _ hinit; simpa using hinit
  | cons pr rest ih =>
    intro init hl hinit
    simp only [List.foldl_cons]
    refine ih (ruleStep init pr) (fun q hq => hl q (List.mem_cons_of_mem pr hq)) ?_
    unfold ruleStep
    split
    · exact addScore_rule_inv init pr.1 hinit (hl pr (List.mem_cons_self pr rest))
    · exact hinit

lemma addScore_ne_nil (cands : List Candidate) (nm : String) (sc : ℚ) (src : String)
    (h : nm ≠ "" ∨ cands ≠ []) : addScore cands nm sc src ≠ [] := by
  by_cases hns : nm = ""
  · simp only [addScore, if_pos hns]
    rcases h with h | h
    · exact absurd hns h
    · exact h
  · simp only [addScore, if_neg hns]
    split
    · rename_i hany
      obtain ⟨c, hc, _⟩ := List.any_eq_true.mp hany
      exact List.ne_nil_of_mem (List.mem_map_of_mem _ hc)
    · simp

lemma foldl_ruleStep_ne_nil (l : List (String × Except Unit Bool)) :
    ∀ init : List Candidate, init ≠ [] → l.foldl ruleStep init ≠ [] := by
  induction l with
  | nil => intro init h; simpa using h
  | cons pr rest ih =>
    intro init h
    simp only [List.foldl_cons]
    refine ih (ruleStep init pr) ?_
    unfold ruleStep
    split
    · exact addScore_ne_nil init pr.1 _ _ (Or.inr h)
    · exact h

lemma foldl_ruleStep_fired_ne_nil (l : List (String × Except Unit Bool)) :
    ∀ (init : List Candidate) (nm : String), (nm, Except.ok true) ∈ l → nm ≠ "" →
      l.foldl ruleStep init ≠ [] := by
  induction l with
  | nil => intro init nm h _; cases h
  | cons pr rest ih =>
    intro init nm hmem hne
    simp only [List.foldl_cons]
    rcases List.mem_cons.mp hmem with heq | hmem2
    · refine foldl_ruleStep_ne_nil rest (ruleStep init pr) ?_
      rw [← heq]
      exact addScore_ne_nil init nm _ _ (Or.inl hne)
    · exact ih (ruleStep init pr) nm hmem2 hne

lemma mlVote_inv (cands : List Candidate) (ml : Except Unit (Option MLResult))
    (hP : ∀ c ∈ cands, "RULE" ∈ c.sources ∧ mkRat 12 10 ≤ c.score ∧
      c.name ∈ RULE_MUDRA_NAMES.map normalizeMudraName)
    (hml : ∀ r : MLResult, ml = .ok (some r) → r.confidence ≤ 1) :
    ∀ c ∈ mlVote cands ml,
      ("RULE" ∈ c.sources ∧ mkRat 12 10 ≤ c.score ∧
        c.name ∈ RULE_MUDRA_NAMES.map normalizeMudraName) ∨ c.score ≤ 1 := by
  intro c hc
  unfold mlVote at hc
  split at hc
  · rename_i r
    split at hc
    · rename_i hcond
      have hconf : r.confidence ≤ 1 := hml r rfl
      have hgt : mkRat 3 10 < r.confidence := hcond.2
      by_cases hns : r.className = ""
      · simp only [addScore, if_pos hns] at hc
        exact Or.inl (hP c hc)
      · simp only [addScore, if_neg hns] at hc
        split at hc
        · obtain ⟨c0, hc0, rfl⟩ := List.mem_map.mp hc
          obtain ⟨hs0, hsc0, hn0⟩ := hP c0 hc0
          split
          · refine Or.inl ⟨List.mem_append_left _ hs0, ?_, hn0⟩
            have hpos : (0:ℚ) < mkRat 3 10 := by decide
            simp only
            linarith
          · exact Or.inl ⟨hs0, hsc0, hn0⟩
        · rcases List.mem_append.mp hc with hmem | hmem
          · exact Or.inl (hP c hmem)
          · rw [List.mem_singleton.mp hmem]
            exact Or.inr hconf
    · exact Or.inl (hP c hc)
  · exact Or.inl (hP c hc)

lemma mlVote_exists_high (cands : List Candidate) (ml : Except Unit (Option MLResult))
    (hP : ∀ c ∈ cands, "RULE" ∈ c.sources ∧ mkRat 12 10 ≤ c.score ∧
      c.name ∈ RULE_MUDRA_NAMES.map normalizeMudraName)
    (hne : cands ≠ []) :
    ∃ c ∈ mlVote cands ml, mkRat 12 10 ≤ c.score := by
  obtain ⟨c0, hc0⟩ := List.exists_mem_of_ne_nil cands hne
  have hsc0 : mkRat 12 10 ≤ c0.score := (hP c0 hc0).2.1
  unfold mlVote
  split
  · rename_i r
    split
    · rename_i hcond
      have hgt : mkRat 3 10 < r.confidence := hcond.2
      by_cases hns : r.className = ""
      · simp only [addScore, if_pos hns]
        exact ⟨c0, hc0, hsc0⟩
      · simp only [addScore, if_neg hns]
        split
        · refine ⟨if c0.name = normalizeMudraName r.className then
              ⟨c0.name, c0.score + r.confidence, c0.sources ++ ["ML"]⟩ else c0, ?_, ?_⟩
          · have := List.mem_map_of_mem (fun c =>
              if c.name = normalizeMudraName r.className then
                ({ name := c.name, score := c.score + r.confidence,
                   sources := c.sources ++ ["ML"] } : Candidate)
              else c) hc0
            simpa using this
          · split
            · have hpos : (0:ℚ) < mkRat 3 10 := by decide
              simp only
              linarith
            · exact hsc0
        · exact ⟨c0, List.mem_append_left _ hc0, hsc0⟩
    · exact ⟨c0, hc0, hsc0⟩
  · exact ⟨c0, hc0, hsc0⟩

lemma selFold_acc_le (l : List Candidate) :
    ∀ acc : Option String × ℚ,
      acc.2 ≤ (l.foldl (fun acc c => if acc.2 < c.score then (some c.name, c.score) else acc)
        acc).2 := by
  induction l with
  | nil => intro acc; exact le_refl _
  | cons c rest ih =>
    intro acc
    simp only [List.foldl_cons]
    refine le_trans ?_ (ih _)
    split
    · exact le_of_lt (by assumption)
    · exact le_refl _

lemma selFold_mem_le (l : List Candidate) :
    ∀ (acc : Option String × ℚ) (c : Candidate), c ∈ l →
      c.score ≤ (l.foldl (fun acc c => if acc.2 < c.score then (some c.name, c.score) else acc)
        acc).2 := by
  induction l with
  | nil => intro acc c hc; cases hc
  | cons d rest ih =>
    intro acc c hc
    simp only [List.foldl_cons]
    rcases List.mem_cons.mp hc with rfl | hcr
    · refine le_trans ?_ (selFold_acc_le rest _)
      split
      · exact le_refl _
      · exact le_of_not_lt (by assumption)
    · exact ih _ c hcr

lemma selFold_result (l : List Candidate) :
    ∀ acc : Option String × ℚ,
      l.foldl (fun acc c => if acc.2 < c.score then (some c.name, c.score) else acc) acc = acc ∨
      ∃ c ∈ l, l.foldl (fun acc c => if acc.2 < c.score then (some c.name, c.score) else acc)
        acc = (some c.name, c.score) := by
  induction l with
  | nil => intro acc; exact Or.inl rfl
  | cons d rest ih =>
    intro acc
    simp only [List.foldl_cons]
    rcases ih (if acc.2 < d.score then (some d.name, d.score) else acc) with h | ⟨c, hc, h⟩
    · rw [h]
      split
      · exact Or.inr ⟨d, List.mem_cons_self d rest, rfl⟩
      · exact Or.inl rfl
    · exact Or.inr ⟨c, List.mem_cons_of_mem d hc, h⟩

lemma selectWinner_max_ge (cands : List Candidate) (c : Candidate) (hc : c ∈ cands) :
    c.score ≤ (selectWinner cands).2 :=
  selFold_mem_le cands (none, 0) c hc

lemma selectWinner_realized (cands : List Candidate) (h : ∃ c ∈ cands, 0 < c.score) :
    ∃ c ∈ cands, selectWinner cands = (some c.name, c.score) := by
  obtain ⟨c0, hc0, hpos⟩ := h
  rcases selFold_result cands (none, 0) with h1 | ⟨c, hc, h1⟩
  · exfalso
    have h2 := selFold_mem_le cands (none, 0) c0 hc0
    rw [h1] at h2
    simp only at h2
    linarith
  · exact ⟨c, hc, h1⟩

lemma addScore_nodup (cands : List Candidate) (nm : String) (sc : ℚ) (src : String)
    (h : (cands.map Candidate.name).Nodup) :
    ((addScore cands nm sc src).map Candidate.name).Nodup := by
  by_cases hns : nm = ""
  · simpa only [addScore, if_pos hns] using h
  · simp only [addScore, if_neg hns]
    split
    · have hf : (fun c : Candidate =>
          (if c.name = normalizeMudraName nm then
            ({ name := c.name, score := c.score + sc, sources := c.sources ++ [src] } :
              Candidate)
          else c).name) = fun c : Candidate => c.name := by
        funext c
        split <;> rfl
      rw [List.map_map]
      rw [show (Candidate.name ∘ fun c : Candidate =>
          if c.name = normalizeMudraName nm then
            ({ name := c.name, score := c.score + sc, sources := c.sources ++ [src] } :
              Candidate)
          else c) = fun c : Candidate => c.name from hf]
      exact h
    · rename_i hnone
      rw [List.map_append]
      simp only [List.map_cons, List.map_nil]
      rw [List.nodup_append]
      refine ⟨h, List.nodup_singleton _, ?_⟩
      intro a ha hb
      rw [List.mem_singleton.mp hb] at ha
      obtain ⟨c, hc, hcn⟩ := List.mem_map.mp ha
      have : cands.any (fun c => c.name = normalizeMudraName nm) = true :=
        List.any_eq_true.mpr ⟨c, hc, by simp [hcn]⟩
      simp [this] at hnone

lemma ruleStep_nodup (init : List Candidate) (pr : String × Except Unit Bool)
    (h : (init.map Candidate.name).Nodup) :
    ((ruleStep init pr).map Candidate.name).Nodup := by
  unfold ruleStep
  split
  · exact addScore_nodup init pr.1 _ _ h
  · exact h

lemma foldl_ruleStep_nodup (l : List (String × Except Unit Bool)) :
    ∀ init : List Candidate, (init.map Candidate.name).Nodup →
      ((l.foldl ruleStep init).map Candidate.name).Nodup := by
  induction l with
  | nil => intro init h; simpa using h
  | cons pr rest ih =>
    intro init h
    simp only [List.foldl_cons]
    exact ih (ruleStep init pr) (ruleStep_nodup init pr h)

lemma mlVote_nodup (cands : List Candidate) (ml : Except Unit (Option MLResult))
    (h : (cands.map Candidate.name).Nodup) :
    ((mlVote cands ml).map Candidate.name).Nodup := by
  unfold mlVote
  split
  · split
    · exact addScore_nodup cands _ _ _ h
    · exact h
  · exact h

lemma candidatesOf_nodup (rs : List (Except Unit Bool)) (ml : Except Unit (Option MLResult)) :
    ((candidatesOf rs ml).map Candidate.name).Nodup := by
  unfold candidatesOf ruleVotes
  exact mlVote_nodup _ ml (foldl_ruleStep_nodup _ [] (by simp))

lemma find?_name_of_mem_nodup (cands : List Candidate) (c : Candidate) (hc : c ∈ cands)
    (hnd : (cands.map Candidate.name).Nodup) :
    cands.find? (fun d => d.name = c.name) = some c := by
  induction cands with
  | nil => cases hc
  | cons d rest ih =>
    rw [List.map_cons, List.nodup_cons] at hnd
    by_cases hdc : d.name = c.name
    · rcases List.mem_cons.mp hc with rfl | hcr
      · exact List.find?_cons_of_pos rest (by simp)
      · exfalso
        apply hnd.1
        rw [hdc]
        exact List.mem_map_of_mem Candidate.name hcr
    · rw [List.find?_cons_of_neg rest (by simp [hdc])]
      rcases List.mem_cons.mp hc with rfl | hcr
      · exact absurd rfl hdc
      · exact ih hcr hnd.2

/-- Claim C1: whenever at least one rule evaluator fires in a frame (and
the classifier, when it answers, reports a confidence of at most 1), the
hybrid scorer's accepted winner is a pose that received a rule vote: the
rule weight 1.2 exceeds any single-source ML contribution, the winner's
method tag is the rule-inclusive "HYBRID", and the frame is accepted
(not "Unknown") because 1.2 exceeds the 0.55 threshold.  In particular a
frame where exactly one rule fires and the classifier is absent yields
that rule's normalized pose name with confidence 1.2 capped at 1.0 and
method "HYBRID". -/
theorem rule_vote_dominates_hybrid_winner (rs : List (Except Unit Bool))
    (ml : Except Unit (Option MLResult))
    (hlen : rs.length = RULE_MUDRA_NAMES.length)
    (hfire : Except.ok true ∈ rs)
    (hml : ∀ r : MLResult, ml = .ok (some r) → r.confidence ≤ 1) :
    ((detectMudraHybrid rs ml).method = "HYBRID" ∧
      (detectMudraHybrid rs ml).mudraName ≠ "Unknown" ∧
      ∃ c ∈ candidatesOf rs ml,
        c.name = (detectMudraHybrid rs ml).mudraName ∧ "RULE" ∈ c.sources ∧
          mkRat 12 10 ≤ c.score) ∧
    (∀ i : Fin 16,
      detectMudraHybrid ((List.replicate 16 (Except.ok false)).set i (.ok true)) (.ok none) =
        ⟨normalizeMudraName (RULE_MUDRA_NAMES.getD i ""), 1, "HYBRID"⟩) := by
  constructor
  · obtain ⟨i, hi, hrsi⟩ := List.mem_iff_getElem.mp hfire
    have hil : i < RULE_MUDRA_NAMES.length := hlen ▸ hi
    have hiz : i < (RULE_MUDRA_NAMES.zip rs).length := by
      rw [List.length_zip]
      omega
    have hpair : (RULE_MUDRA_NAMES.zip rs)[i] = (RULE_MUDRA_NAMES[i], Except.ok true) := by
      rw [List.getElem_zip, hrsi]
    have hmem : (RULE_MUDRA_NAMES[i], Except.ok true) ∈ RULE_MUDRA_NAMES.zip rs := by
      rw [← hpair]
      exact List.getElem_mem hiz
    have hnm_ne : RULE_MUDRA_NAMES[i] ≠ "" := by
      have hall : ∀ n ∈ RULE_MUDRA_NAMES, n ≠ "" := by decide
      exact hall _ (List.getElem_mem hil)
    have hrv_inv : ∀ c ∈ ruleVotes (RULE_MUDRA_NAMES.zip rs),
        "RULE" ∈ c.sources ∧ mkRat 12 10 ≤ c.score ∧
          c.name ∈ RULE_MUDRA_NAMES.map normalizeMudraName := by
      refine ruleVotes_inv (RULE_MUDRA_NAMES.zip rs) [] ?_ (by simp)
      intro pr hpr
      obtain ⟨a, b⟩ := pr
      exact (List.of_mem_zip hpr).1
    have hrv_ne : ruleVotes (RULE_MUDRA_NAMES.zip rs) ≠ [] :=
      foldl_ruleStep_fired_ne_nil (RULE_MUDRA_NAMES.zip rs) [] RULE_MUDRA_NAMES[i] hmem hnm_ne
    have hQ : ∀ c ∈ candidatesOf rs ml,
        ("RULE" ∈ c.sources ∧ mkRat 12 10 ≤ c.score ∧
          c.name ∈ RULE_MUDRA_NAMES.map normalizeMudraName) ∨ c.score ≤ 1 :=
      mlVote_inv (ruleVotes (RULE_MUDRA_NAMES.zip rs)) ml hrv_inv hml
    have hex : ∃ c ∈ candidatesOf rs ml, mkRat 12 10 ≤ c.score :=
      mlVote_exists_high (ruleVotes (RULE_MUDRA_NAMES.zip rs)) ml hrv_inv hrv_ne
    obtain ⟨ch, hch, hchge⟩ := hex
    have hpos : ∃ c ∈ candidatesOf rs ml, 0 < c.score :=
      ⟨ch, hch, lt_of_lt_of_le (by decide : (0:ℚ) < mkRat 12 10) hchge⟩
    obtain ⟨cw, hcw, hsel⟩ := selectWinner_realized (candidatesOf rs ml) hpos
    have hmax : mkRat 12 10 ≤ (selectWinner (candidatesOf rs ml)).2 :=
      le_trans hchge (selectWinner_max_ge (candidatesOf rs ml) ch hch)
    have hcw_score : mkRat 12 10 ≤ cw.score := by
      rw [hsel] at hmax
      exact hmax
    have hP'cw : "RULE" ∈ cw.sources ∧ mkRat 12 10 ≤ cw.score ∧
        cw.name ∈ RULE_MUDRA_NAMES.map normalizeMudraName := by
      rcases hQ cw hcw with h | h
      · exact h
      · exfalso
        have h1 : (1:ℚ) < mkRat 12 10 := by decide
        linarith
    have hw_ne : cw.name ≠ "" := by
      have hall : ∀ n ∈ RULE_MUDRA_NAMES.map normalizeMudraName, n ≠ "" := by decide
      exact hall _ hP'cw.2.2
    have hw_nunk : cw.name ≠ "Unknown" := by
      have hall : ∀ n ∈ RULE_MUDRA_NAMES.map normalizeMudraName, n ≠ "Unknown" := by decide
      exact hall _ hP'cw.2.2
    have hthr : HYBRID_THRESHOLD < cw.score :=
      lt_of_lt_of_le (by decide : HYBRID_THRESHOLD < mkRat 12 10) hcw_score
    have hfind : (candidatesOf rs ml).find? (fun d => d.name = cw.name) = some cw :=
      find?_name_of_mem_nodup (candidatesOf rs ml) cw hcw (candidatesOf_nodup rs ml)
    have hcont : ((((candidatesOf rs ml).find? (fun d => d.name = cw.name)).map
        Candidate.sources).getD []).contains "RULE" = true := by
      rw [hfind]
      simp only [Option.map_some', Option.getD_some]
      exact List.elem_eq_true_of_mem hP'cw.1
    have hdetect : detectMudraHybrid rs ml = ⟨cw.name, min 1 cw.score, "HYBRID"⟩ := by
      unfold detectMudraHybrid
      simp only [hsel]
      rw [if_pos ⟨hw_ne, hthr⟩, if_pos hcont]
    rw [hdetect]
    exact ⟨rfl, hw_nunk, cw, hcw, rfl, hP'cw.1, hcw_score⟩
  · decide

theorem rule_vote_dominates_hybrid_winner_witness :
    (Except.ok true :: List.replicate 15 (Except.ok false) : List (Except Unit Bool)).length =
        RULE_MUDRA_NAMES.length ∧
    Except.ok true ∈ (Except.ok true :: List.replicate 15 (Except.ok false) :
        List (Except Unit Bool)) ∧
    (∀ r : MLResult, (Except.ok none : Except Unit (Option MLResult)) = .ok (some r) →
        r.confidence ≤ 1) ∧
    (((detectMudraHybrid (Except.ok true :: List.replicate 15 (Except.ok false))
          (.ok none)).method = "HYBRID" ∧
      (detectMudraHybrid (Except.ok true :: List.replicate 15 (Except.ok false))
          (.ok none)).mudraName ≠ "Unknown" ∧
      ∃ c ∈ candidatesOf (Except.ok true :: List.replicate 15 (Except.ok false)) (.ok none),
        c.name = (detectMudraHybrid (Except.ok true :: List.replicate 15 (Except.ok false))
            (.ok none)).mudraName ∧ "RULE" ∈ c.sources ∧ mkRat 12 10 ≤ c.score) ∧
    (∀ i : Fin 16,
      detectMudraHybrid ((List.replicate 16 (Except.ok false)).set i (.ok true)) (.ok none) =
        ⟨normalizeMudraName (RULE_MUDRA_NAMES.getD i ""), 1, "HYBRID"⟩)) :=
  ⟨by decide, List.mem_cons_self _ _, by intro r h; simp at h,
    rule_vote_dominates_hybrid_winner (Except.ok true :: List.replicate 15 (Except.ok false))
      (.ok none) (by decide) (List.mem_cons_self _ _) (by intro r h; simp at h)⟩
